import Mathlib

/-!
# keep-common: `pkg/chain/ethereum/chain.go`

A shallow embedding of the Ethereum chain handle declarations: the 20 byte
`Address` with its console rendering `TerminalString`, the `Header` and
`Block` records, and the capability interfaces `Subscription`,
`ChainReader`, `ContractTransactor` and `Chain`.
-/

namespace Ethereum

/-! ## Bytes and the `%x` verb of `fmt` -/

/-- Go `byte`: an unsigned 8 bit value. -/
abbrev Byte := Fin 256

/-- The digit table `ldigits` of Go `fmt` (`"0123456789abcdefx"`), as indexed
by a nibble. -/
def ldigits : List Char :=
  ['0', '1', '2', '3', '4', '5', '6', '7', '8', '9', 'a', 'b', 'c', 'd', 'e', 'f', 'x']

/-- One step of the loop in `fmt.(*fmt).fmtSbx`: the byte `c` is written as
`digits[c>>4]`, `digits[c&0xF]`. -/
def fmtByte (c : Byte) : List Char :=
  [ldigits.getD (c.val >>> 4) '?', ldigits.getD (c.val &&& 0xF) '?']

/-- The `%x` verb applied to a byte slice with no flags: every byte in order,
two lower-case hexadecimal digits each (`fmt.(*fmt).fmtSbx`). -/
def fmtSbx : List Byte → List Char
  | [] => []
  | c :: cs => fmtByte c ++ fmtSbx cs

/-- The fragment of `fmt.Sprintf` used here: the format is copied character by
character, and each `%x` consumes the next operand, a byte slice, and renders
it with `fmtSbx`. Formats outside this fragment (another verb, a missing or
an extra operand) are not modelled and give `none`. -/
def Sprintf : List Char → List (List Byte) → Option (List Char)
  | [], [] => some []
  | [], _ :: _ => none
  | '%' :: 'x' :: rest, arg :: args => (Sprintf rest args).map (fmtSbx arg ++ ·)
  | '%' :: _, _ => none
  | c :: rest, args => (Sprintf rest args).map (c :: ·)

/-! ## Slicing -/

/-- Go slice expression `xs[:hi]`: out of range when `hi` exceeds the length. -/
def sliceTo {α : Type} (xs : List α) (hi : Nat) : Option (List α) :=
  if hi ≤ xs.length then some (xs.take hi) else none

/-- Go slice expression `xs[lo:]`: out of range when `lo` exceeds the length. -/
def sliceFrom {α : Type} (xs : List α) (lo : Nat) : Option (List α) :=
  if lo ≤ xs.length then some (xs.drop lo) else none

/-! ## Address -/

/-- Address represents the 20 byte address of an Ethereum account
(`type Address [20]byte`). -/
structure Address where
  bytes : List Byte
  size : bytes.length = 20
  deriving DecidableEq

/-- Index expression `a[i]` on the array, `i < 20`. -/
def Address.get (a : Address) (i : Fin 20) : Byte :=
  a.bytes.get ⟨i.val, by rw [a.size]; exact i.isLt⟩

/-- The format string of `TerminalString`. -/
def terminalFormat : String := "%x…%x"

/-- TerminalString returns the address as a console string:
`fmt.Sprintf("%x…%x", a[:3], a[17:])`. The result is `none` when a slice
expression is out of range or the format leaves the modelled fragment. -/
def Address.TerminalString (a : Address) : Option String := do
  let head ← sliceTo a.bytes 3
  let tail ← sliceFrom a.bytes 17
  let out ← Sprintf terminalFormat.data [head, tail]
  pure (String.mk out)

/-! ## The rendering as the specification words it -/

/-- The ellipsis character U+2026. -/
def ellipsis : Char := Char.ofNat 0x2026

/-- Lower-case hexadecimal digit of a value below 16: `0`-`9`, then `a`-`f`. -/
def hexDigit (d : Nat) : Char :=
  if d < 10 then Char.ofNat ('0'.toNat + d) else Char.ofNat ('a'.toNat + (d - 10))

/-- Lower-case hexadecimal encoding, two digits per byte, high digit first. -/
def hexEncode : List Byte → List Char
  | [] => []
  | b :: bs => hexDigit (b.val / 16) :: hexDigit (b.val % 16) :: hexEncode bs

/-- A character drawn from `0`-`9` and `a`-`f`. -/
def isLowerHex (c : Char) : Bool :=
  ('0'.toNat ≤ c.toNat && c.toNat ≤ '9'.toNat) || ('a'.toNat ≤ c.toNat && c.toNat ≤ 'f'.toNat)

/-- Value of a lower-case hexadecimal digit (used to invert `fmtByte`). -/
def unhex (c : Char) : Nat :=
  if c.toNat ≤ '9'.toNat then c.toNat - '0'.toNat else c.toNat - 'a'.toNat + 10

/-- Reads two hexadecimal digits back as a number. -/
def decodeByte : List Char → Nat
  | [x, y] => 16 * unhex x + unhex y
  | _ => 0

/-- An address given by its first three bytes, fourteen middle bytes and last
three bytes (the array literal `Address{f0, f1, f2, ..., l0, l1, l2}`). -/
def Address.ofParts (f0 f1 f2 : Byte) (mid : Byte) (l0 l1 l2 : Byte) : Address :=
  ⟨[f0, f1, f2] ++ List.replicate 14 mid ++ [l0, l1, l2], by simp⟩

/-! ## Construction of an address -/

/-- Failure of address construction. -/
inductive AddressError where
  | InvalidLength
  deriving DecidableEq, Repr

/-- Modelled from the spec: the constructor of an `Address` from a byte
sequence, which the source does not contain (it declares the array type only).
The specification words it as: construction from exactly 20 bytes; any other
length fails with InvalidLength. -/
def Address.fromBytes (bs : List Byte) : Except AddressError Address :=
  if h : bs.length = 20 then .ok ⟨bs, h⟩ else .error .InvalidLength

/-- Reading back the bytes of an address (the slice `a[:]`). -/
def Address.toBytes (a : Address) : List Byte := a.bytes

/-! ## Header and Block -/

/-- Header represents a block header in the Ethereum blockchain:
`struct { Number *big.Int }`. The pointer is `none` when nil, and `big.Int`
is an arbitrary-precision signed integer. A non-nil pointer is represented by
the integer it points to: the identity of the allocation is not part of the
model, so equality of two `Header` terms means equal numbers, not equal
pointers. -/
structure Header where
  Number : Option Int
  deriving DecidableEq, Repr

/-- Block represents an entire block in the Ethereum blockchain:
`struct { *Header }`, a header embedded by pointer (`none` when nil). -/
structure Block where
  Header : Option Header
  deriving DecidableEq, Repr

/-- A run-time failure of a Go expression. -/
inductive RuntimeError where
  | nilDereference
  deriving DecidableEq, Repr

/-- The promoted field selector `b.Number`, shorthand for `(*b.Header).Number`:
it dereferences the embedded pointer and fails when that pointer is nil. -/
def Block.Number (b : Block) : Except RuntimeError (Option Int) :=
  match b.Header with
  | none => .error .nilDereference
  | some h => .ok h.Number

/-! ## Capability interfaces

An interface is the record of its methods. A method of an implementation
with state `σ` takes the state and its arguments and returns its results with
the next state. `Ctx` stands for `context.Context`, `HeaderChan` for
`chan<- *Header`, `Sub` for a `Subscription` value and `E` for `error`
(`none` is the nil error). -/

/-- Go `uint64`. -/
abbrev Uint64 := Fin (2 ^ 64)

/-- ChainReader provides access to the blockchain. -/
structure ChainReader (σ Ctx HeaderChan Sub E : Type) where
  HeaderByNumber : σ → Ctx → Option Int → (Option Header × Option E) × σ
  SubscribeNewHead : σ → Ctx → HeaderChan → (Option Sub × Option E) × σ

/-- ContractTransactor defines the methods needed to allow operating with
contract on a write only basis. -/
structure ContractTransactor (σ Ctx E : Type) where
  PendingNonceAt : σ → Ctx → Address → (Uint64 × Option E) × σ

/-- Chain represents an Ethereum chain handle: the interface embedding
`ChainReader` and `ContractTransactor`. -/
structure Chain (σ Ctx HeaderChan Sub E : Type) extends
    ChainReader σ Ctx HeaderChan Sub E, ContractTransactor σ Ctx E

/-- The two capabilities a chain handle projects to. -/
def Chain.split {σ Ctx HeaderChan Sub E : Type} (c : Chain σ Ctx HeaderChan Sub E) :
    ChainReader σ Ctx HeaderChan Sub E × ContractTransactor σ Ctx E :=
  (c.toChainReader, c.toContractTransactor)

/-- A chain handle put together from a reader and a transactor over the same
state. -/
def Chain.compose {σ Ctx HeaderChan Sub E : Type}
    (r : ChainReader σ Ctx HeaderChan Sub E) (t : ContractTransactor σ Ctx E) :
    Chain σ Ctx HeaderChan Sub E :=
  { toChainReader := r, toContractTransactor := t }

/-! ## Subscription -/

/-- The error channel of a subscription as its reader observes it: the values
sent on it so far, oldest first, and whether it has been closed. -/
structure ErrChan (E : Type) where
  sent : List E
  closed : Bool
  deriving DecidableEq, Repr

/-- What can happen to a live subscription: the feed fails with an error, or
the consumer calls `Unsubscribe`. -/
inductive SubEvent (E : Type) where
  | fault (e : E)
  | unsubscribe
  deriving DecidableEq, Repr

/-- A fresh subscription: nothing sent, channel open (state Active). -/
def Subscription.init (E : Type) : ErrChan E := ⟨[], false⟩

/-- Modelled from the spec: the behaviour of a `Subscription`, of which the
source declares the interface only. State machine Active → (fault or explicit
Unsubscribe) → Closed with no further transition: a fault on an active
subscription sends its single error and closes the channel, `Unsubscribe` on
an active subscription closes the channel with no value, and on a closed
subscription nothing happens. -/
def Subscription.step {E : Type} (s : ErrChan E) : SubEvent E → ErrChan E
  | .fault e => if s.closed then s else ⟨s.sent ++ [e], true⟩
  | .unsubscribe => if s.closed then s else ⟨s.sent, true⟩

/-- Modelled from the spec: `Unsubscribe()` on a subscription. -/
def Subscription.Unsubscribe {E : Type} (s : ErrChan E) : ErrChan E :=
  Subscription.step s .unsubscribe

/-- Modelled from the spec: `Err()` returns the error channel. -/
def Subscription.Err {E : Type} (s : ErrChan E) : ErrChan E := s

/-- The subscription after a sequence of events. -/
def Subscription.run {E : Type} (s : ErrChan E) : List (SubEvent E) → ErrChan E
  | [] => s
  | ev :: evs => Subscription.run (Subscription.step s ev) evs

/-! ## Helper lemmas on the rendering -/

theorem terminalFormat_data :
    terminalFormat.data = ['%', 'x', Char.ofNat 0x2026, '%', 'x'] := by
  decide

/-- An array of 20 bytes is the list of its 20 indexed elements. -/
theorem Address.bytes_eq (a : Address) :
    a.bytes = [a.get 0, a.get 1, a.get 2, a.get 3, a.get 4, a.get 5, a.get 6,
      a.get 7, a.get 8, a.get 9, a.get 10, a.get 11, a.get 12, a.get 13,
      a.get 14, a.get 15, a.get 16, a.get 17, a.get 18, a.get 19] := by
  rcases a with ⟨l, h⟩
  apply List.ext_get
  · simp [h]
  · intro n h1 h2
    simp only [List.length_cons, List.length_nil] at h2
    interval_cases n <;> rfl

/-- The rendering, with the slices and the format evaluated. -/
theorem Address.TerminalString_eq (a : Address) :
    a.TerminalString = some (String.mk
      (fmtByte (a.get 0) ++ fmtByte (a.get 1) ++ fmtByte (a.get 2)
        ++ [Char.ofNat 0x2026]
        ++ fmtByte (a.get 17) ++ fmtByte (a.get 18) ++ fmtByte (a.get 19))) := by
  have hb := a.bytes_eq
  simp only [Address.TerminalString, sliceTo, sliceFrom, a.size, terminalFormat_data]
  rw [hb]
  simp [Sprintf, fmtSbx]

set_option maxRecDepth 100000 in
theorem fmtByte_eq_hexEncode : ∀ c : Byte, fmtByte c = hexEncode [c] := by
  decide

set_option maxRecDepth 100000 in
theorem decodeByte_fmtByte : ∀ c : Byte, decodeByte (fmtByte c) = c.val := by
  decide

set_option maxRecDepth 100000 in
theorem fmtByte_lowerHex : ∀ c : Byte, ∀ x ∈ fmtByte c, isLowerHex x = true := by
  decide

set_option maxRecDepth 100000 in
theorem fmtByte_utf8Len : ∀ c : Byte, String.utf8Len (fmtByte c) = 2 := by
  decide

theorem fmtByte_length (c : Byte) : (fmtByte c).length = 2 := rfl

theorem fmtByte_injective {c d : Byte} (h : fmtByte c = fmtByte d) : c = d := by
  apply Fin.ext
  rw [← decodeByte_fmtByte c, ← decodeByte_fmtByte d, h]

theorem fmtByte_append_inj {c d : Byte} {xs ys : List Char}
    (h : fmtByte c ++ xs = fmtByte d ++ ys) : c = d ∧ xs = ys := by
  have hh := List.append_inj h (by simp [fmtByte_length])
  exact ⟨fmtByte_injective hh.1, hh.2⟩

/-! ## Address.TerminalString -/

/-- C1: for every address the console string is the lower-case two digit per
byte hexadecimal encoding of bytes 0, 1, 2, then the single character U+2026,
then the same encoding of bytes 17, 18, 19; an address that starts with
0x11, 0x22, 0x33 and ends with 0xdd, 0xee, 0xff renders as `112233…ddeeff`. -/
theorem TerminalString_hex (a : Address) :
    a.TerminalString = some (String.mk
      (hexEncode [a.get 0, a.get 1, a.get 2] ++ [ellipsis]
        ++ hexEncode [a.get 17, a.get 18, a.get 19]))
    ∧ (a.get 0 = 0x11 → a.get 1 = 0x22 → a.get 2 = 0x33 →
        a.get 17 = 0xdd → a.get 18 = 0xee → a.get 19 = 0xff →
        a.TerminalString = some "112233…ddeeff") := by
  have h := a.TerminalString_eq
  simp only [fmtByte_eq_hexEncode] at h
  refine ⟨?_, ?_⟩
  · rw [h]
    simp [hexEncode, ellipsis]
  · intro h0 h1 h2 h17 h18 h19
    rw [h, h0, h1, h2, h17, h18, h19]
    decide

theorem TerminalString_hex_witness :
    (Address.ofParts 0x11 0x22 0x33 0x5a 0xdd 0xee 0xff).TerminalString
      = some "112233…ddeeff" :=
  (TerminalString_hex (Address.ofParts 0x11 0x22 0x33 0x5a 0xdd 0xee 0xff)).2
    rfl rfl rfl rfl rfl rfl

/-- C2: the console string depends on bytes 0, 1, 2, 17, 18, 19 only: two
addresses that agree on these six bytes have the same console string,
whatever their bytes 3 to 16 are. -/
theorem TerminalString_ends_only (a b : Address)
    (h0 : a.get 0 = b.get 0) (h1 : a.get 1 = b.get 1) (h2 : a.get 2 = b.get 2)
    (h17 : a.get 17 = b.get 17) (h18 : a.get 18 = b.get 18)
    (h19 : a.get 19 = b.get 19) :
    a.TerminalString = b.TerminalString := by
  rw [a.TerminalString_eq, b.TerminalString_eq, h0, h1, h2, h17, h18, h19]

theorem TerminalString_ends_only_witness :
    Address.ofParts 1 2 3 0x00 4 5 6 ≠ Address.ofParts 1 2 3 0xff 4 5 6
    ∧ (Address.ofParts 1 2 3 0x00 4 5 6).TerminalString
        = (Address.ofParts 1 2 3 0xff 4 5 6).TerminalString :=
  ⟨by decide,
    TerminalString_ends_only (Address.ofParts 1 2 3 0x00 4 5 6)
      (Address.ofParts 1 2 3 0xff 4 5 6) rfl rfl rfl rfl rfl rfl⟩

/-- C3: the console string is lossy: two distinct addresses share one console
string, hence no function recovers every address from its console string. -/
theorem TerminalString_lossy :
    (∃ a b : Address, a ≠ b ∧ a.TerminalString = b.TerminalString)
    ∧ ¬ ∃ recover : Option String → Address,
        ∀ a : Address, recover a.TerminalString = a := by
  have hne : Address.ofParts 1 2 3 0x00 4 5 6 ≠ Address.ofParts 1 2 3 0xff 4 5 6 := by
    decide
  have heq : (Address.ofParts 1 2 3 0x00 4 5 6).TerminalString
      = (Address.ofParts 1 2 3 0xff 4 5 6).TerminalString := by
    decide
  refine ⟨⟨_, _, hne, heq⟩, ?_⟩
  rintro ⟨recover, hr⟩
  apply hne
  rw [← hr (Address.ofParts 1 2 3 0x00 4 5 6), heq, hr]

/-- C9: the console string determines the bytes it shows: two addresses with
the same console string agree on bytes 0, 1, 2, 17, 18 and 19. -/
theorem TerminalString_shown_bytes_inj (a b : Address)
    (h : a.TerminalString = b.TerminalString) :
    a.get 0 = b.get 0 ∧ a.get 1 = b.get 1 ∧ a.get 2 = b.get 2
    ∧ a.get 17 = b.get 17 ∧ a.get 18 = b.get 18 ∧ a.get 19 = b.get 19 := by
  rw [a.TerminalString_eq, b.TerminalString_eq] at h
  have h := congrArg String.data (Option.some.inj h)
  simp only [List.append_assoc] at h
  obtain ⟨e0, h⟩ := fmtByte_append_inj h
  obtain ⟨e1, h⟩ := fmtByte_append_inj h
  obtain ⟨e2, h⟩ := fmtByte_append_inj h
  simp only [List.singleton_append, List.cons.injEq, true_and] at h
  obtain ⟨e17, h⟩ := fmtByte_append_inj h
  obtain ⟨e18, h⟩ := fmtByte_append_inj h
  exact ⟨e0, e1, e2, e17, e18, fmtByte_injective h⟩

theorem TerminalString_shown_bytes_inj_witness :
    (Address.ofParts 1 2 3 0x00 4 5 6).get 0 = (Address.ofParts 1 2 3 0xff 4 5 6).get 0
    ∧ (Address.ofParts 1 2 3 0x00 4 5 6).get 1 = (Address.ofParts 1 2 3 0xff 4 5 6).get 1
    ∧ (Address.ofParts 1 2 3 0x00 4 5 6).get 2 = (Address.ofParts 1 2 3 0xff 4 5 6).get 2
    ∧ (Address.ofParts 1 2 3 0x00 4 5 6).get 17 = (Address.ofParts 1 2 3 0xff 4 5 6).get 17
    ∧ (Address.ofParts 1 2 3 0x00 4 5 6).get 18 = (Address.ofParts 1 2 3 0xff 4 5 6).get 18
    ∧ (Address.ofParts 1 2 3 0x00 4 5 6).get 19 = (Address.ofParts 1 2 3 0xff 4 5 6).get 19 :=
  TerminalString_shown_bytes_inj (Address.ofParts 1 2 3 0x00 4 5 6)
    (Address.ofParts 1 2 3 0xff 4 5 6) (by decide)

/-- C10: for every address the console string is defined (both slice
expressions are in range) and has a fixed shape: 13 characters, 15 bytes in
UTF-8, six characters from `0`-`9`, `a`-`f`, then U+2026, then six more
characters from `0`-`9`, `a`-`f`. -/
theorem TerminalString_shape (a : Address) :
    (sliceTo a.bytes 3).isSome = true ∧ (sliceFrom a.bytes 17).isSome = true
    ∧ ∃ s : String, a.TerminalString = some s
      ∧ s.length = 13 ∧ s.utf8ByteSize = 15
      ∧ ∃ front back : List Char, s.data = front ++ [ellipsis] ++ back
        ∧ front.length = 6 ∧ back.length = 6
        ∧ (∀ c ∈ front, isLowerHex c = true) ∧ (∀ c ∈ back, isLowerHex c = true) := by
  refine ⟨by simp [sliceTo, a.size], by simp [sliceFrom, a.size], _,
    a.TerminalString_eq, ?_, ?_,
    fmtByte (a.get 0) ++ fmtByte (a.get 1) ++ fmtByte (a.get 2),
    fmtByte (a.get 17) ++ fmtByte (a.get 18) ++ fmtByte (a.get 19), ?_, ?_, ?_, ?_, ?_⟩
  · simp [String.length, fmtByte_length]
  · have he : (Char.ofNat 0x2026).utf8Size = 3 := by decide
    simp [String.utf8ByteSize, fmtByte_utf8Len, he]
  · simp [ellipsis]
  · simp [fmtByte_length]
  · simp [fmtByte_length]
  · intro c hc
    simp only [List.mem_append] at hc
    rcases hc with (hc | hc) | hc <;> exact fmtByte_lowerHex _ c hc
  · intro c hc
    simp only [List.mem_append] at hc
    rcases hc with (hc | hc) | hc <;> exact fmtByte_lowerHex _ c hc

/-! ## Address construction -/

/-- C4: constructing an address from a byte sequence of length 20 and reading
back its bytes gives the same sequence; constructing one from a byte sequence
of any other length fails with InvalidLength. -/
theorem Address_fromBytes_roundtrip (bs : List Byte) :
    (bs.length = 20 → (Address.fromBytes bs).map Address.toBytes = .ok bs)
    ∧ (bs.length ≠ 20 → Address.fromBytes bs = .error .InvalidLength) := by
  constructor
  · intro h
    simp [Address.fromBytes, h, Except.map, Address.toBytes]
  · intro h
    simp [Address.fromBytes, h]

theorem Address_fromBytes_roundtrip_witness :
    ((Address.fromBytes (List.replicate 20 0xab)).map Address.toBytes
        = .ok (List.replicate 20 0xab))
    ∧ Address.fromBytes [0x01, 0x02] = .error .InvalidLength :=
  ⟨(Address_fromBytes_roundtrip (List.replicate 20 0xab)).1 (by decide),
    (Address_fromBytes_roundtrip [0x01, 0x02]).2 (by decide)⟩

/-! ## Header and Block -/

/-- C5, as stated, fails: the header whose number is the integer -1 has a
present number that is negative. -/
theorem Header_number_negative :
    (Header.mk (some (-1))).Number = some (-1) ∧ ¬ ((0 : Int) ≤ -1)
    ∧ ¬ ∀ h : Header, ∀ n : Int, h.Number = some n → 0 ≤ n := by
  refine ⟨rfl, by decide, ?_⟩
  intro hall
  exact absurd (hall (Header.mk (some (-1))) (-1) rfl) (by decide)

/-- C5, amended: the number of a header is either absent or a signed
arbitrary-precision integer, and the header type puts no constraint on its
sign: every optional integer, a negative one included, is the number of some
header. -/
theorem Header_number_any_sign (n : Option Int) :
    ∃ h : Header, h.Number = n :=
  ⟨Header.mk n, rfl⟩

/-- C6, as stated, fails: the zero block has no header, and reading its number
through the embedded header is a nil dereference. -/
theorem Block_header_absent :
    (Block.mk none).Header = none
    ∧ (Block.mk none).Number = .error .nilDereference
    ∧ ¬ ∀ b : Block, ∃ h : Header, b.Header = some h := by
  refine ⟨rfl, rfl, ?_⟩
  intro hall
  obtain ⟨h, hh⟩ := hall (Block.mk none)
  exact absurd hh (by simp)

/-- C6, amended: a block embeds at most one header; reading the block number
through the embedded header is defined exactly when that header is present,
and then gives the number of that header; when it is absent the read is a nil
dereference. -/
theorem Block_number_defined_iff (b : Block) :
    (b.Header = none ∧ b.Number = .error .nilDereference)
    ∨ (∃ h : Header, b.Header = some h ∧ b.Number = .ok h.Number) := by
  rcases b with ⟨_ | h⟩
  · exact Or.inl ⟨rfl, rfl⟩
  · exact Or.inr ⟨h, rfl, rfl⟩

/-! ## Chain -/

/-- C7: a chain handle is exactly a chain reader together with a contract
transactor: it projects to both, its three methods HeaderByNumber,
SubscribeNewHead and PendingNonceAt are those of its projections, any reader
and transactor over the same state compose to a chain handle with these
projections, and a chain handle is determined by its two projections (it has
no further operation). -/
theorem Chain_is_composition {σ Ctx HeaderChan Sub E : Type} :
    (∀ c : Chain σ Ctx HeaderChan Sub E,
        c.split.1.HeaderByNumber = c.HeaderByNumber
        ∧ c.split.1.SubscribeNewHead = c.SubscribeNewHead
        ∧ c.split.2.PendingNonceAt = c.PendingNonceAt)
    ∧ (∀ (r : ChainReader σ Ctx HeaderChan Sub E) (t : ContractTransactor σ Ctx E),
        (Chain.compose r t).split = (r, t))
    ∧ (∀ c : Chain σ Ctx HeaderChan Sub E, Chain.compose c.split.1 c.split.2 = c)
    ∧ Function.Bijective (Chain.split : Chain σ Ctx HeaderChan Sub E → _) := by
  refine ⟨fun c => ⟨rfl, rfl, rfl⟩, fun r t => rfl, fun c => rfl, ?_, ?_⟩
  · intro c d h
    have hc : Chain.compose c.split.1 c.split.2 = c := rfl
    have hd : Chain.compose d.split.1 d.split.2 = d := rfl
    rw [← hc, ← hd, h]
  · rintro ⟨r, t⟩
    exact ⟨Chain.compose r t, rfl⟩

/-! ## Subscription -/

theorem Subscription.step_closed {E : Type} (s : ErrChan E) (hs : s.closed = true)
    (ev : SubEvent E) : Subscription.step s ev = s := by
  cases ev <;> simp [Subscription.step, hs]

theorem Subscription.run_closed {E : Type} (evs : List (SubEvent E)) (s : ErrChan E)
    (hs : s.closed = true) : Subscription.run s evs = s := by
  induction evs with
  | nil => rfl
  | cons ev evs ih => rw [Subscription.run, Subscription.step_closed s hs, ih]

theorem Subscription.step_closed_after {E : Type} (s : ErrChan E) (ev : SubEvent E) :
    (Subscription.step s ev).closed = true := by
  cases ev <;> cases hs : s.closed <;> simp [Subscription.step, hs]

theorem Subscription.run_append {E : Type} (evs evs2 : List (SubEvent E)) (s : ErrChan E) :
    Subscription.run s (evs ++ evs2) = Subscription.run (Subscription.run s evs) evs2 := by
  induction evs generalizing s with
  | nil => rfl
  | cons ev evs ih => simp [Subscription.run, ih]

/-- Invariant of a subscription: at most one value sent, and a sent value
means the channel is closed. -/
theorem Subscription.run_invariant {E : Type} (evs : List (SubEvent E)) (s : ErrChan E)
    (h1 : s.sent.length ≤ 1) (h2 : s.sent ≠ [] → s.closed = true) :
    (Subscription.run s evs).sent.length ≤ 1
    ∧ ((Subscription.run s evs).sent ≠ [] → (Subscription.run s evs).closed = true) := by
  induction evs generalizing s with
  | nil => exact ⟨h1, h2⟩
  | cons ev evs ih =>
    rw [Subscription.run]
    cases hs : s.closed with
    | true => rw [Subscription.step_closed s hs]; exact ih s h1 h2
    | false =>
      have hnil : s.sent = [] := by
        by_contra hne
        have := h2 hne
        simp [hs] at this
      apply ih
      · cases ev <;> simp [Subscription.step, hs, hnil]
      · intro _
        exact Subscription.step_closed_after s ev

/-- C8: over any sequence of faults and Unsubscribe calls on a fresh
subscription, the error channel carries at most one value; after an Unsubscribe
call it is closed; once closed, no later event sends a value or changes it;
and a second Unsubscribe call leaves it exactly as the first did. -/
theorem Subscription_err_channel {E : Type} (evs : List (SubEvent E)) :
    (Subscription.Err (Subscription.run (Subscription.init E) evs)).sent.length ≤ 1
    ∧ (Subscription.Err (Subscription.Unsubscribe
        (Subscription.run (Subscription.init E) evs))).closed = true
    ∧ (SubEvent.unsubscribe ∈ evs →
        (Subscription.Err (Subscription.run (Subscription.init E) evs)).closed = true)
    ∧ ((Subscription.Err (Subscription.run (Subscription.init E) evs)).closed = true →
        ∀ later : List (SubEvent E),
          Subscription.Err (Subscription.run (Subscription.init E) (evs ++ later))
            = Subscription.Err (Subscription.run (Subscription.init E) evs))
    ∧ Subscription.Unsubscribe (Subscription.Unsubscribe
          (Subscription.run (Subscription.init E) evs))
        = Subscription.Unsubscribe (Subscription.run (Subscription.init E) evs) := by
  have hclosed : (Subscription.Unsubscribe
      (Subscription.run (Subscription.init E) evs)).closed = true :=
    Subscription.step_closed_after _ _
  refine ⟨?_, hclosed, ?_, ?_, ?_⟩
  · exact (Subscription.run_invariant evs (Subscription.init E) (by simp [Subscription.init])
      (by simp [Subscription.init])).1
  · intro hmem
    obtain ⟨pre, post, rfl⟩ := List.append_of_mem hmem
    rw [Subscription.run_append, Subscription.run, Subscription.run_closed]
    all_goals exact Subscription.step_closed_after _ _
  · intro hc later
    simp only [Subscription.Err] at hc ⊢
    rw [Subscription.run_append, Subscription.run_closed later _ hc]
  · exact Subscription.step_closed _ hclosed _

theorem Subscription_err_channel_witness :
    Subscription.run (Subscription.init String)
        [.unsubscribe, .fault "connection lost", .unsubscribe]
      = (⟨[], true⟩ : ErrChan String)
    ∧ Subscription.run (Subscription.init String)
        [.fault "connection lost", .fault "again", .unsubscribe]
      = (⟨["connection lost"], true⟩ : ErrChan String) :=
  ⟨((Subscription_err_channel [SubEvent.unsubscribe]).2.2.2.1 (by decide)
      [.fault "connection lost", .unsubscribe]).trans (by decide),
    ((Subscription_err_channel [SubEvent.fault "connection lost"]).2.2.2.1 (by decide)
      [.fault "again", .unsubscribe]).trans (by decide)⟩

end Ethereum
